import Mathlib

/-!
Verification of the key-rotation / proxy middleware (src/app/database.py and
src/app/proxy.py) against its natural-language specification.

Modelling conventions:
* Timestamps are natural numbers; ISO-8601 comparisons in SQL become Nat
  comparisons.  Each call to the store takes the current time as an argument,
  and sequential calls use strictly increasing times.
* The keys table is a list of rows in rowid (= insertion) order.
* SQL `ORDER BY last_rotated_at ASC LIMIT 1` over a rowid-order scan returns
  the first row attaining the minimal value; this is the stable tie-break the
  spec documents ("ties broken by arbitrary stable order (e.g., id ascending)").
* Python floats are modelled as exact rationals.
-/

namespace AIMiddleware

/-- Credential status values stored in the keys table. -/
inductive Status where
  | Healthy
  | Resting
  | Disabled
deriving DecidableEq, Repr

/-- A row of the keys table (src/app/database.py, CREATE TABLE keys). -/
structure Cred where
  id : Nat
  name : String
  keyValue : String
  status : Status
  disabledUntil : Option Nat
  note : Option String
  lastRotatedAt : Nat
deriving DecidableEq, Repr

/-- Healing step of get_next_key (src/app/database.py line 421): a Resting row
whose disabled_until is strictly in the past becomes Healthy with
disabled_until cleared.  A NULL disabled_until never satisfies the SQL
comparison, hence never heals. -/
def healCred (now : Nat) (k : Cred) : Cred :=
  match k.status, k.disabledUntil with
  | Status.Resting, some d =>
      if d < now then { k with status := Status.Healthy, disabledUntil := none } else k
  | _, _ => k

/-- The healing UPDATE applies to every row of the table. -/
def healKeys (now : Nat) (ks : List Cred) : List Cred :=
  ks.map (healCred now)

/-- Row eligibility in the SELECT of get_next_key: status Healthy and id not in
the excluded list (an empty exclusion list means no NOT IN clause at all,
which filters nothing, exactly like membership in the empty list). -/
def eligible (excludeIds : List Nat) (k : Cred) : Bool :=
  (k.status == Status.Healthy) && !(excludeIds.contains k.id)

/-- `ORDER BY last_rotated_at ASC LIMIT 1`: first row (in rowid order) with the
minimal last_rotated_at. -/
def selectLRU : List Cred → Option Cred
  | [] => none
  | k :: ks =>
      match selectLRU ks with
      | none => some k
      | some b => if b.lastRotatedAt < k.lastRotatedAt then some b else some k

/-- src/app/database.py get_next_key (lines 414-440): heal resting rows, pick
the least-recently-used Healthy row not excluded, stamp last_rotated_at = now
on it, and return the row as it was read (before the stamp).  The second
component is the table after the call. -/
def get_next_key (now : Nat) (excludeIds : List Nat) (ks : List Cred) :
    Option Cred × List Cred :=
  let healed := healKeys now ks
  match selectLRU (healed.filter (eligible excludeIds)) with
  | none => (none, healed)
  | some sel =>
      (some sel,
       healed.map (fun k => if k.id = sel.id then { k with lastRotatedAt := now } else k))

/-- N sequential get_next_key calls with no exclusions, at strictly increasing
times t, t+1, ...: the list of returned rows and the final table. -/
def runRotation : Nat → Nat → List Cred → List (Option Cred) × List Cred
  | 0, _, ks => ([], ks)
  | n + 1, t, ks =>
      let r := get_next_key t [] ks
      let rest := runRotation n (t + 1) r.2
      (r.1 :: rest.1, rest.2)

/-- The table shape produced by stamping a block of rows at consecutive
times t, t+1, ... in list order. -/
def stampSeq (t : Nat) : List Cred → List Cred
  | [] => []
  | k :: ks => { k with lastRotatedAt := t } :: stampSeq (t + 1) ks

theorem healCred_of_healthy (now : Nat) (k : Cred) (h : k.status = Status.Healthy) :
    healCred now k = k := by
  cases k with
  | mk id name kv st du note lr =>
      cases h
      cases du <;> rfl

theorem healKeys_of_healthy (now : Nat) (ks : List Cred)
    (h : ∀ k ∈ ks, k.status = Status.Healthy) : healKeys now ks = ks := by
  induction ks with
  | nil => rfl
  | cons k rest ih =>
      have hk := healCred_of_healthy now k (h k (List.mem_cons_self k rest))
      have hrest := ih (fun x hx => h x (List.mem_cons_of_mem k hx))
      simp [healKeys] at hrest ⊢
      exact ⟨hk, hrest⟩

theorem filter_eligible_of_healthy (ks : List Cred)
    (h : ∀ k ∈ ks, k.status = Status.Healthy) :
    ks.filter (eligible []) = ks := by
  apply List.filter_eq_self.mpr
  intro a ha
  simp [eligible, h a ha]

theorem selectLRU_mem : ∀ {ks : List Cred} {c : Cred}, selectLRU ks = some c → c ∈ ks := by
  intro ks
  induction ks with
  | nil => intro c h; simp [selectLRU] at h
  | cons k rest ih =>
      intro c h
      unfold selectLRU at h
      cases hrest : selectLRU rest with
      | none =>
          rw [hrest] at h
          simp at h
          exact h ▸ List.mem_cons_self k rest
      | some b =>
          rw [hrest] at h
          by_cases hb : b.lastRotatedAt < k.lastRotatedAt
          · simp [hb] at h
            exact h ▸ List.mem_cons_of_mem k (ih hrest)
          · simp [hb] at h
            exact h ▸ List.mem_cons_self k rest

theorem selectLRU_cons_of_min {b : Cred} {rest : List Cred}
    (h : ∀ x ∈ rest, b.lastRotatedAt ≤ x.lastRotatedAt) :
    selectLRU (b :: rest) = some b := by
  unfold selectLRU
  cases hrest : selectLRU rest with
  | none => rfl
  | some c =>
      have hc : ¬ c.lastRotatedAt < b.lastRotatedAt :=
        not_lt.mpr (h c (selectLRU_mem hrest))
      simp [hc]

theorem selectLRU_append_of_lt {B : List Cred} {c : Cred} :
    ∀ A : List Cred, selectLRU B = some c →
      (∀ a ∈ A, c.lastRotatedAt < a.lastRotatedAt) →
      selectLRU (A ++ B) = some c := by
  intro A
  induction A with
  | nil => intro hB _; simpa using hB
  | cons a A ih =>
      intro hB hlt
      have ihA := ih hB (fun x hx => hlt x (List.mem_cons_of_mem a hx))
      simp only [List.cons_append]
      unfold selectLRU
      rw [ihA]
      simp [hlt a (List.mem_cons_self a A)]

theorem map_stamp_of_ne (bId t : Nat) :
    ∀ A : List Cred, (∀ a ∈ A, a.id ≠ bId) →
      A.map (fun k => if k.id = bId then { k with lastRotatedAt := t } else k) = A := by
  intro A
  induction A with
  | nil => intro _; rfl
  | cons a A ih =>
      intro h
      simp only [List.map_cons, if_neg (h a (List.mem_cons_self a A)),
        ih (fun x hx => h x (List.mem_cons_of_mem a hx))]

theorem stampSeq_status : ∀ (B : List Cred) (t : Nat),
    (∀ b ∈ B, b.status = Status.Healthy) →
    ∀ x ∈ stampSeq t B, x.status = Status.Healthy := by
  intro B
  induction B with
  | nil => intro t _ x hx; simp [stampSeq] at hx
  | cons b B ih =>
      intro t h x hx
      rcases List.mem_cons.mp hx with hx | hx
      · rw [hx]
        exact h b (List.mem_cons_self b B)
      · exact ih (t + 1) (fun y hy => h y (List.mem_cons_of_mem b hy)) x hx

theorem stampSeq_le : ∀ (B : List Cred) (t : Nat), ∀ x ∈ stampSeq t B, t ≤ x.lastRotatedAt := by
  intro B
  induction B with
  | nil => intro t x hx; simp [stampSeq] at hx
  | cons b B ih =>
      intro t x hx
      rcases List.mem_cons.mp hx with hx | hx
      · rw [hx]
      · exact Nat.le_of_succ_le (ih (t + 1) x hx)

theorem runRotation_append (m n : Nat) : ∀ (t : Nat) (ks : List Cred),
    runRotation (m + n) t ks =
      ((runRotation m t ks).1 ++ (runRotation n (t + m) (runRotation m t ks).2).1,
       (runRotation n (t + m) (runRotation m t ks).2).2) := by
  induction m with
  | zero => intro t ks; simp [runRotation]
  | succ m ih =>
      intro t ks
      have hm : m + 1 + n = (m + n) + 1 := by omega
      have ht : t + 1 + m = t + (m + 1) := by omega
      rw [hm]
      simp only [runRotation]
      rw [ih (t + 1) (get_next_key t [] ks).2, ht]
      simp [List.cons_append]

/-- The rotation invariant: the table is a stamped prefix A (all Healthy, all
stamps below the current time t, all larger than every remaining original
stamp) followed by the untouched suffix B (all Healthy, ascending stamps).
The next B.length calls return exactly the rows of B in order and stamp them
at consecutive times. -/
theorem runRotation_spec :
    ∀ (B A : List Cred) (t : Nat),
      (∀ a ∈ A, a.status = Status.Healthy) →
      (∀ b ∈ B, b.status = Status.Healthy) →
      (∀ x ∈ A ++ B, x.lastRotatedAt < t) →
      (∀ a ∈ A, ∀ b ∈ B, b.lastRotatedAt < a.lastRotatedAt) →
      B.Pairwise (fun x y => x.lastRotatedAt ≤ y.lastRotatedAt) →
      ((A ++ B).map Cred.id).Nodup →
      runRotation B.length t (A ++ B) = (B.map some, A ++ stampSeq t B) := by
  intro B
  induction B with
  | nil => intro A t _ _ _ _ _ _; simp [runRotation, stampSeq]
  | cons b B ih =>
      intro A t hA hB hlt hAB hasc hnd
      have hbH : b.status = Status.Healthy := hB b (List.mem_cons_self b B)
      have hBH : ∀ x ∈ B, x.status = Status.Healthy :=
        fun x hx => hB x (List.mem_cons_of_mem b hx)
      have hallH : ∀ x ∈ A ++ b :: B, x.status = Status.Healthy := by
        intro x hx
        rcases List.mem_append.mp hx with hx | hx
        · exact hA x hx
        · exact hB x hx
      -- decompose the Nodup hypothesis
      have hndA : ∀ a ∈ A, a.id ≠ b.id := by
        intro a ha heq
        have h1 : a.id ∈ A.map Cred.id := List.mem_map_of_mem Cred.id ha
        have h2 : a.id ∈ (b :: B).map Cred.id := by
          rw [heq]; exact List.mem_cons_self _ _
        rw [List.map_append, List.nodup_append] at hnd
        exact hnd.2.2 h1 h2
      have hndB : ∀ x ∈ B, x.id ≠ b.id := by
        intro x hx heq
        rw [List.map_append, List.nodup_append] at hnd
        have h3 : ((b :: B).map Cred.id).Nodup := hnd.2.1
        rw [List.map_cons, List.nodup_cons] at h3
        exact h3.1 (heq ▸ List.mem_map_of_mem Cred.id hx)
      -- the selected row is b
      have hsel : selectLRU (A ++ b :: B) = some b := by
        apply selectLRU_append_of_lt A
        · exact selectLRU_cons_of_min (List.pairwise_cons.mp hasc).1
        · intro a ha
          exact hAB a ha b (List.mem_cons_self b B)
      -- the call heals nothing, selects b, and stamps it at time t
      have hcall : get_next_key t [] (A ++ b :: B) =
          (some b, A ++ { b with lastRotatedAt := t } :: B) := by
        simp only [get_next_key]
        rw [healKeys_of_healthy t _ hallH, filter_eligible_of_healthy _ hallH, hsel]
        simp only [List.map_append, List.map_cons]
        rw [map_stamp_of_ne b.id t A hndA, map_stamp_of_ne b.id t B hndB]
        simp
      -- apply the induction hypothesis to the new prefix A ++ [stamped b]
      have hih := ih (A ++ [{ b with lastRotatedAt := t }]) (t + 1)
        (by
          intro a ha
          rcases List.mem_append.mp ha with ha | ha
          · exact hA a ha
          · simp at ha
            rw [ha]
            exact hbH)
        hBH
        (by
          intro x hx
          rcases List.mem_append.mp hx with hx | hx
          · rcases List.mem_append.mp hx with hx | hx
            · exact Nat.lt_succ_of_lt (hlt x (List.mem_append_left _ hx))
            · simp at hx
              rw [hx]
              exact Nat.lt_succ_self t
          · exact Nat.lt_succ_of_lt (hlt x (List.mem_append_right _ (List.mem_cons_of_mem b hx))))
        (by
          intro a ha x hx
          rcases List.mem_append.mp ha with ha | ha
          · exact hAB a ha x (List.mem_cons_of_mem b hx)
          · simp at ha
            rw [ha]
            exact hlt x (List.mem_append_right _ (List.mem_cons_of_mem b hx)))
        (List.pairwise_cons.mp hasc).2
        (by
          have : ((A ++ [{ b with lastRotatedAt := t }]) ++ B).map Cred.id
              = (A ++ b :: B).map Cred.id := by
            simp
          rw [this]
          exact hnd)
      -- assemble
      show runRotation (B.length + 1) t (A ++ b :: B) = _
      unfold runRotation
      rw [hcall]
      have harr : A ++ { b with lastRotatedAt := t } :: B
          = (A ++ [{ b with lastRotatedAt := t }]) ++ B := by simp
      simp only [harr, hih]
      simp [stampSeq]

/-- Claim C1: for a table of N Healthy credentials listed in ascending order of
their previous last_rotated_at stamps (with list order = insertion order used
for ties), N sequential get_next_key calls at strictly increasing times with no
exclusions return each credential exactly once, in that order — each call
selects the Healthy row with the smallest last_rotated_at and immediately
stamps last_rotated_at = now on it before returning the row as read — and the
(N+1)-th call returns the first credential again (now carrying the stamp it
received in the first call). -/
theorem rotation_fairness (h0 : Cred) (rest : List Cred) (t0 : Nat)
    (hH : ∀ k ∈ h0 :: rest, k.status = Status.Healthy)
    (hasc : (h0 :: rest).Pairwise (fun x y => x.lastRotatedAt ≤ y.lastRotatedAt))
    (hlt : ∀ k ∈ h0 :: rest, k.lastRotatedAt < t0)
    (hnd : ((h0 :: rest).map Cred.id).Nodup) :
    (runRotation ((h0 :: rest).length + 1) t0 (h0 :: rest)).1
      = (h0 :: rest).map some ++ [some { h0 with lastRotatedAt := t0 }] := by
  have hN := runRotation_spec (h0 :: rest) [] t0 (by intro a ha; simp at ha) hH
    (by simpa using hlt) (by intro a ha; simp at ha) hasc (by simpa using hnd)
  simp only [List.nil_append] at hN
  rw [runRotation_append ((h0 :: rest).length) 1 t0 (h0 :: rest), hN]
  have hstampH : ∀ x ∈ stampSeq t0 (h0 :: rest), x.status = Status.Healthy :=
    stampSeq_status (h0 :: rest) t0 hH
  have hsel2 : selectLRU (stampSeq t0 (h0 :: rest)) = some { h0 with lastRotatedAt := t0 } := by
    show selectLRU ({ h0 with lastRotatedAt := t0 } :: stampSeq (t0 + 1) rest) = _
    apply selectLRU_cons_of_min
    intro x hx
    exact Nat.le_of_succ_le (stampSeq_le rest (t0 + 1) x hx)
  have hcall2 : (get_next_key (t0 + (h0 :: rest).length) [] (stampSeq t0 (h0 :: rest))).1
      = some { h0 with lastRotatedAt := t0 } := by
    simp only [get_next_key]
    rw [healKeys_of_healthy _ _ hstampH, filter_eligible_of_healthy _ hstampH, hsel2]
  simp only [List.length_cons] at hcall2
  simp [runRotation, hcall2]

/-- Status-transition part of src/app/database.py update_key_stats
(lines 448-460), as an if/elif chain on (success, error_code) applied to the
row's current (status, disabled_until). -/
def statusTransition (now : Nat) (success : Bool) (errorCode : Option Nat)
    (st : Status) (du : Option Nat) : Status × Option Nat :=
  if success = true ∧ errorCode = none then
    (if st = Status.Resting then (Status.Healthy, none) else (st, du))
  else if errorCode = some 429 then
    (Status.Resting, some (now + 60))
  else if errorCode = some 400 ∨ errorCode = some 401 ∨ errorCode = some 403 then
    (Status.Disabled, none)
  else (st, du)

/-- The status-transition table exactly as claim C2 states it: success with no
error code heals a Resting row; 429 rests the row until now + 60; 400, 401 and
403 disable it; every other combination leaves the row unchanged. -/
def claimTransitionTable (now : Nat) (success : Bool) (errorCode : Option Nat)
    (st : Status) (du : Option Nat) : Status × Option Nat :=
  if success = true ∧ errorCode = none ∧ st = Status.Resting then
    (Status.Healthy, none)
  else if errorCode = some 429 then
    (Status.Resting, some (now + 60))
  else if errorCode = some 400 ∨ errorCode = some 401 ∨ errorCode = some 403 then
    (Status.Disabled, none)
  else (st, du)

/-- Claim C2: for every credential, update_key_stats applies exactly the
claimed status-transition table: (success, no error code) heals a Resting row
to Healthy clearing disabled_until, error 429 rests the row until now + 60
seconds, errors 400/401/403 disable it clearing disabled_until, and every
other (success, errorCode) combination leaves status and disabled_until
unchanged, independent of the starting status except the success-on-Resting
case. -/
theorem update_key_stats_matches_claim_table
    (now : Nat) (success : Bool) (ec : Option Nat) (st : Status) (du : Option Nat) :
    statusTransition now success ec st du = claimTransitionTable now success ec st du := by
  cases success <;> cases st <;> rcases ec with _ | n <;>
    simp [statusTransition, claimTransitionTable]

def witCredA : Cred :=
  { id := 1, name := "a", keyValue := "key-one", status := Status.Healthy,
    disabledUntil := none, note := none, lastRotatedAt := 0 }

def witCredB : Cred :=
  { id := 2, name := "b", keyValue := "key-two", status := Status.Healthy,
    disabledUntil := none, note := none, lastRotatedAt := 0 }

/-- Concrete instance of rotation_fairness: two fresh Healthy credentials with
equal (epoch) stamps are returned in insertion order, and the third call
returns the first credential again. -/
theorem rotation_fairness_witness :
    (∀ k ∈ witCredA :: [witCredB], k.status = Status.Healthy) ∧
    List.Pairwise (fun x y => x.lastRotatedAt ≤ y.lastRotatedAt) (witCredA :: [witCredB]) ∧
    (∀ k ∈ witCredA :: [witCredB], k.lastRotatedAt < 10) ∧
    (List.map Cred.id (witCredA :: [witCredB])).Nodup ∧
    (runRotation ((witCredA :: [witCredB]).length + 1) 10 (witCredA :: [witCredB])).1
      = (witCredA :: [witCredB]).map some ++ [some { witCredA with lastRotatedAt := 10 }] :=
  ⟨by decide, by decide, by decide, by decide,
    rotation_fairness witCredA [witCredB] 10 (by decide) (by decide) (by decide) (by decide)⟩

/-! ## The proxy attempt loop (src/app/proxy.py, function proxy) -/

/-- What the upstream API does on a given attempt: a transport-level exception
(requests.exceptions.RequestException) or an HTTP response with a status code
and a body. -/
inductive Outcome where
  | netErr
  | resp (status : Nat) (body : String)
deriving DecidableEq, Repr

/-- The responses the proxy function can return to its caller. -/
inductive ProxyResult where
  | noKeys
  | relay (status : Nat) (body : String) (keyId : Nat)
  | networkError
  | allFailed
deriving DecidableEq, Repr

/-- HTTP status of each proxy response (src/app/proxy.py lines 561, 878, 881,
905, 909). A relay mirrors the upstream status verbatim. -/
def responseStatus : ProxyResult → Nat
  | ProxyResult.noKeys => 503
  | ProxyResult.relay s _ _ => s
  | ProxyResult.networkError => 502
  | ProxyResult.allFailed => 503

/-- The "error" field of the JSON bodies the proxy itself fabricates; a relay
carries the upstream body verbatim instead. -/
def responseErrorMessage : ProxyResult → Option String
  | ProxyResult.noKeys => some "No healthy API keys available."
  | ProxyResult.relay _ _ _ => none
  | ProxyResult.networkError => some "Middleware network error"
  | ProxyResult.allFailed => some "All keys failed after retries"

/-- Per-request loop state: the keys table, the tried_key_ids list, the
sequence of update_key_stats calls made so far (key id, success, error code),
and how many upstream HTTP requests were issued. -/
structure LoopState where
  store : List Cred
  tried : List Nat
  recorded : List (Nat × Bool × Option Nat)
  upstreamCalls : Nat
deriving DecidableEq, Repr

/-- src/app/database.py update_key_stats applied to the loop state: the status
transition runs on the credential's row, and the call is appended to the
record trace. -/
def recordOutcome (now keyId : Nat) (success : Bool) (errorCode : Option Nat)
    (s : LoopState) : LoopState :=
  { s with
    store := s.store.map (fun k =>
      if k.id = keyId then
        { k with
          status := (statusTransition now success errorCode k.status k.disabledUntil).1,
          disabledUntil := (statusTransition now success errorCode k.status k.disabledUntil).2 }
      else k),
    recorded := s.recorded ++ [(keyId, success, errorCode)] }

/-- Whether an iteration of the attempt loop returns to the caller or falls
through to the next iteration (the two `continue` statements). -/
inductive StepOut where
  | done (r : ProxyResult)
  | failover
deriving DecidableEq, Repr

/-- One iteration of the attempt loop of src/app/proxy.py proxy
(lines 556-905): select a key excluding tried ids (returning the no-keys 503
when none), append it to tried_key_ids, issue the upstream request, then on a
network exception record a synthetic 599 failure and fail over while
attempt < max_retries (else the 502); on an ok (< 400) response record a
success and relay it; on an error response record the failure with its status
code and fail over only when the status is 503 and attempt < max_retries, else
relay the upstream status and body verbatim.  Every update_key_stats call is
gated by the enable_metrics_collection setting (read on line 478, checked on
lines 844, 855 and 897): with it false nothing is recorded.  metricsOn models
that setting for the request. -/
def attemptStep (metricsOn : Bool) (upstream : Nat → Outcome) (maxRetries : Int)
    (attempt t : Nat) (s : LoopState) : StepOut × LoopState :=
  match get_next_key t s.tried s.store with
  | (none, healed) => (StepOut.done ProxyResult.noKeys, { s with store := healed })
  | (some k, stamped) =>
      let s1 : LoopState :=
        { store := stamped, tried := s.tried ++ [k.id], recorded := s.recorded,
          upstreamCalls := s.upstreamCalls + 1 }
      match upstream attempt with
      | Outcome.netErr =>
          let s2 := if metricsOn then recordOutcome t k.id false (some 599) s1 else s1
          if (attempt : Int) < maxRetries then (StepOut.failover, s2)
          else (StepOut.done ProxyResult.networkError, s2)
      | Outcome.resp c body =>
          if c < 400 then
            (StepOut.done (ProxyResult.relay c body k.id),
             if metricsOn then recordOutcome t k.id true none s1 else s1)
          else
            let s2 := if metricsOn then recordOutcome t k.id false (some c) s1 else s1
            if c = 503 ∧ (attempt : Int) < maxRetries then (StepOut.failover, s2)
            else (StepOut.done (ProxyResult.relay c body k.id), s2)

/-- The attempt loop itself: `for attempt in range(max_retries + 1)`, falling
through to the "All keys failed after retries" 503 when the iterations are
exhausted without returning.  The fuel argument is the number of remaining
iterations of the range. -/
def runAttempts (metricsOn : Bool) (upstream : Nat → Outcome) (maxRetries : Int) :
    Nat → Nat → Nat → LoopState → ProxyResult × LoopState
  | 0, _, _, s => (ProxyResult.allFailed, s)
  | fuel + 1, attempt, t, s =>
      match attemptStep metricsOn upstream maxRetries attempt t s with
      | (StepOut.done r, s1) => (r, s1)
      | (StepOut.failover, s1) =>
          runAttempts metricsOn upstream maxRetries fuel (attempt + 1) (t + 1) s1

/-- The whole retry loop of the proxy function, on a fresh per-request state:
range(max_retries + 1) iterations (none when max_retries is negative),
starting at attempt 0 with an empty tried list. -/
def runProxy (metricsOn : Bool) (upstream : Nat → Outcome) (maxRetries : Int) (t0 : Nat)
    (store : List Cred) : ProxyResult × LoopState :=
  runAttempts metricsOn upstream maxRetries (maxRetries + 1).toNat 0 t0
    { store := store, tried := [], recorded := [], upstreamCalls := 0 }

theorem runAttempts_one (m : Bool) (ups : Nat → Outcome) (mR : Int) (a t : Nat)
    (s : LoopState) :
    runAttempts m ups mR 1 a t s =
      match attemptStep m ups mR a t s with
      | (StepOut.done r, s1) => (r, s1)
      | (StepOut.failover, s1) => (ProxyResult.allFailed, s1) := rfl

/-- A no-candidate selection: if no row of the table is Healthy after healing,
get_next_key returns none and only performs the healing update. -/
theorem get_next_key_none_of_unhealthy (t : Nat) (ex : List Nat) (store : List Cred)
    (h : ∀ k ∈ store, (healCred t k).status ≠ Status.Healthy) :
    get_next_key t ex store = (none, healKeys t store) := by
  have hfil : (healKeys t store).filter (eligible ex) = [] := by
    apply List.filter_eq_nil_iff.mpr
    intro a ha
    rw [healKeys, List.mem_map] at ha
    obtain ⟨k, hk, rfl⟩ := ha
    simp [eligible, h k hk]
  simp [get_next_key, hfil, selectLRU]

theorem attemptStep_not_done_allFailed (m : Bool) (ups : Nat → Outcome) (mR : Int)
    (a t : Nat) (s : LoopState) :
    (attemptStep m ups mR a t s).1 ≠ StepOut.done ProxyResult.allFailed := by
  unfold attemptStep
  cases hsel : get_next_key t s.tried s.store with
  | mk r st =>
      cases r with
      | none => simp
      | some k =>
          cases hup : ups a with
          | netErr =>
              dsimp only
              split <;> simp
          | resp c body =>
              dsimp only
              by_cases h1 : c < 400
              · simp [h1]
              · simp only [if_neg h1]
                by_cases h2 : c = 503 ∧ (a : Int) < mR
                · simp [h2]
                · simp [h1, h2]

theorem attemptStep_failover_lt (m : Bool) (ups : Nat → Outcome) (mR : Int) (a t : Nat)
    (s : LoopState)
    (h : (attemptStep m ups mR a t s).1 = StepOut.failover) : (a : Int) < mR := by
  cases hsel : get_next_key t s.tried s.store with
  | mk r st =>
      unfold attemptStep at h
      rw [hsel] at h
      cases r with
      | none => simp at h
      | some k =>
          cases hup : ups a with
          | netErr =>
              rw [hup] at h
              dsimp only at h
              by_cases hlt : (a : Int) < mR
              · exact hlt
              · rw [if_neg hlt] at h
                simp at h
          | resp c body =>
              rw [hup] at h
              dsimp only at h
              by_cases h1 : c < 400
              · simp [h1] at h
              · rw [if_neg h1] at h
                by_cases h2 : c = 503 ∧ (a : Int) < mR
                · exact h2.2
                · rw [if_neg h2] at h
                  simp at h

theorem runAttempts_ne_allFailed (m : Bool) (ups : Nat → Outcome) (mR : Int) :
    ∀ (fuel a t : Nat) (s : LoopState), (a : Int) + fuel = mR + 1 → 1 ≤ fuel →
      (runAttempts m ups mR fuel a t s).1 ≠ ProxyResult.allFailed := by
  intro fuel
  induction fuel with
  | zero => intro a t s _ h1; omega
  | succ f ih =>
      intro a t s hsum _
      simp only [runAttempts]
      cases hstep : attemptStep m ups mR a t s with
      | mk out s1 =>
          cases out with
          | done r =>
              intro hr
              simp at hr
              have hne := attemptStep_not_done_allFailed m ups mR a t s
              rw [hstep] at hne
              rw [hr] at hne
              exact hne rfl
          | failover =>
              have hlt : (a : Int) < mR := by
                apply attemptStep_failover_lt m ups mR a t s
                rw [hstep]
              exact ih (a + 1) (t + 1) s1 (by push_cast at hsum ⊢; omega) (by omega)

def wit3Cred : Cred :=
  { id := 3, name := "c", keyValue := "key-three", status := Status.Healthy,
    disabledUntil := none, note := none, lastRotatedAt := 0 }

/-- Claim C3 as stated is false on the code: every update_key_stats call in
the proxy loop is gated by the enable_metrics_collection setting
(src/app/proxy.py lines 844, 855, 897), which the admin API accepts as false.
With it false, an upstream 503 on the only attempt still relays the error
verbatim but records NO failure for the credential: the record trace stays
empty where the claim requires the entry (3, false, 503). -/
theorem proxy_error_recording_claim_false :
    (attemptStep false (fun _ => Outcome.resp 503 "busy") 0 0 5
        { store := [wit3Cred], tried := [], recorded := [], upstreamCalls := 0 }).1
      = StepOut.done (ProxyResult.relay 503 "busy" 3) ∧
    (attemptStep false (fun _ => Outcome.resp 503 "busy") 0 0 5
        { store := [wit3Cred], tried := [], recorded := [], upstreamCalls := 0 }).2.recorded
      = [] ∧
    ([] : List (Nat × Bool × Option Nat)) ≠ [(3, false, some 503)] :=
  ⟨by decide, by decide, by decide⟩

/-- Claim C3 amended: in an attempt that gets an upstream response with status
at least 400, a failure with that status code is recorded for the selected
credential PROVIDED the enable_metrics_collection setting is true (its shipped
default; with it false nothing is recorded); regardless of that setting, the
loop moves to another credential exactly when the status is 503 and
attempt < max_retries, and otherwise the upstream status and body are relayed
verbatim.  In particular with max_retries = 0 and an upstream that always
answers 503, the caller receives the upstream 503 relay after exactly one
upstream request. -/
theorem proxy_error_relay_and_failover
    (m : Bool) (ups : Nat → Outcome) (mR : Int) (a t : Nat) (s : LoopState)
    (k : Cred) (stamped : List Cred) (c : Nat) (body : String)
    (hsel : get_next_key t s.tried s.store = (some k, stamped))
    (hresp : ups a = Outcome.resp c body)
    (herr : 400 ≤ c) :
    (m = true →
      (attemptStep m ups mR a t s).2.recorded = s.recorded ++ [(k.id, false, some c)]) ∧
    (m = false → (attemptStep m ups mR a t s).2.recorded = s.recorded) ∧
    ((attemptStep m ups mR a t s).1 = StepOut.failover ↔ c = 503 ∧ (a : Int) < mR) ∧
    (¬(c = 503 ∧ (a : Int) < mR) →
        (attemptStep m ups mR a t s).1 = StepOut.done (ProxyResult.relay c body k.id)) ∧
    (∀ (t0 : Nat) (store0 : List Cred) (k0 : Cred) (st0 : List Cred),
      get_next_key t0 [] store0 = (some k0, st0) →
      (runProxy m (fun _ => Outcome.resp 503 body) 0 t0 store0).1
          = ProxyResult.relay 503 body k0.id ∧
      (runProxy m (fun _ => Outcome.resp 503 body) 0 t0 store0).2.upstreamCalls = 1) := by
  have hstep : attemptStep m ups mR a t s =
      (if c = 503 ∧ (a : Int) < mR then
        (StepOut.failover,
         if m then recordOutcome t k.id false (some c)
            { store := stamped, tried := s.tried ++ [k.id], recorded := s.recorded,
              upstreamCalls := s.upstreamCalls + 1 }
         else
            { store := stamped, tried := s.tried ++ [k.id], recorded := s.recorded,
              upstreamCalls := s.upstreamCalls + 1 })
      else
        (StepOut.done (ProxyResult.relay c body k.id),
         if m then recordOutcome t k.id false (some c)
            { store := stamped, tried := s.tried ++ [k.id], recorded := s.recorded,
              upstreamCalls := s.upstreamCalls + 1 }
         else
            { store := stamped, tried := s.tried ++ [k.id], recorded := s.recorded,
              upstreamCalls := s.upstreamCalls + 1 })) := by
    unfold attemptStep
    rw [hsel, hresp]
    dsimp only
    rw [if_neg (by omega : ¬ c < 400)]
  refine ⟨?_, ?_, ?_, ?_, ?_⟩
  · intro hm
    subst hm
    rw [hstep]
    split <;> simp [recordOutcome]
  · intro hm
    subst hm
    rw [hstep]
    split <;> simp
  · rw [hstep]
    by_cases hc : c = 503 ∧ (a : Int) < mR
    · rw [if_pos hc]
      simp [hc]
    · rw [if_neg hc]
      simp [hc]
  · intro hc
    rw [hstep, if_neg hc]
  · intro t0 store0 k0 st0 hsel0
    have hstep0 : attemptStep m (fun _ => Outcome.resp 503 body) 0 0 t0
        { store := store0, tried := [], recorded := [], upstreamCalls := 0 } =
        (StepOut.done (ProxyResult.relay 503 body k0.id),
         if m then recordOutcome t0 k0.id false (some 503)
            { store := st0, tried := [] ++ [k0.id], recorded := [], upstreamCalls := 0 + 1 }
         else
            { store := st0, tried := [] ++ [k0.id], recorded := [],
              upstreamCalls := 0 + 1 }) := by
      unfold attemptStep
      rw [hsel0]
      norm_num
    unfold runProxy
    have hfuel : ((0 : Int) + 1).toNat = 1 := rfl
    rw [hfuel, runAttempts_one, hstep0]
    cases m <;> simp [recordOutcome]

/-- Concrete instance of proxy_error_relay_and_failover with metrics
collection enabled: one Healthy credential, max_retries = 0, upstream
answering 503 — the failure is recorded and the upstream 503 is relayed after
exactly one upstream request. -/
theorem proxy_error_relay_and_failover_witness :
    400 ≤ 503 ∧
    (attemptStep true (fun _ => Outcome.resp 503 "busy") 0 0 5
        { store := [wit3Cred], tried := [], recorded := [], upstreamCalls := 0 }).2.recorded
      = [(3, false, some 503)] ∧
    (runProxy true (fun _ => Outcome.resp 503 "busy") 0 5 [wit3Cred]).1
      = ProxyResult.relay 503 "busy" 3 ∧
    (runProxy true (fun _ => Outcome.resp 503 "busy") 0 5 [wit3Cred]).2.upstreamCalls = 1 := by
  have h := proxy_error_relay_and_failover true (fun _ => Outcome.resp 503 "busy") 0 0 5
    { store := [wit3Cred], tried := [], recorded := [], upstreamCalls := 0 }
    wit3Cred [{ wit3Cred with lastRotatedAt := 5 }] 503 "busy" (by decide) rfl (by decide)
  have h2 := h.2.2.2.2 5 [wit3Cred] wit3Cred [{ wit3Cred with lastRotatedAt := 5 }] (by decide)
  exact ⟨by decide, h.1 rfl, h2.1, h2.2⟩

/-- Claim C4: whenever get_next_key finds no credential, the attempt
immediately produces the 503 response with error message "No healthy API keys
available." without issuing an upstream request; and on a store in which no
credential is or can become Healthy by healing, the whole proxy loop returns
that response with zero upstream requests made. -/
theorem proxy_no_keys_503
    (m : Bool) (ups : Nat → Outcome) (mR : Int) (a t : Nat) (s : LoopState)
    (healed : List Cred)
    (hsel : get_next_key t s.tried s.store = (none, healed)) :
    attemptStep m ups mR a t s
      = (StepOut.done ProxyResult.noKeys, { s with store := healed }) ∧
    responseStatus ProxyResult.noKeys = 503 ∧
    responseErrorMessage ProxyResult.noKeys = some "No healthy API keys available." ∧
    (attemptStep m ups mR a t s).2.upstreamCalls = s.upstreamCalls ∧
    (∀ (t0 : Nat) (store0 : List Cred), 0 ≤ mR →
      (∀ k ∈ store0, ∀ u : Nat, (healCred u k).status ≠ Status.Healthy) →
      (runProxy m ups mR t0 store0).1 = ProxyResult.noKeys ∧
      (runProxy m ups mR t0 store0).2.upstreamCalls = 0) := by
  have hstep : attemptStep m ups mR a t s
      = (StepOut.done ProxyResult.noKeys, { s with store := healed }) := by
    unfold attemptStep
    rw [hsel]
  refine ⟨hstep, rfl, rfl, by rw [hstep], ?_⟩
  intro t0 store0 hmr hunh
  have hnone : get_next_key t0 [] store0 = (none, healKeys t0 store0) :=
    get_next_key_none_of_unhealthy t0 [] store0 (fun k hk => hunh k hk t0)
  have hstep0 : attemptStep m ups mR 0 t0
      { store := store0, tried := [], recorded := [], upstreamCalls := 0 }
      = (StepOut.done ProxyResult.noKeys,
         { store := healKeys t0 store0, tried := [], recorded := [], upstreamCalls := 0 }) := by
    unfold attemptStep
    rw [hnone]
  obtain ⟨f, hf⟩ : ∃ f, (mR + 1).toNat = f + 1 := ⟨mR.toNat, by omega⟩
  unfold runProxy
  rw [hf]
  simp only [runAttempts]
  rw [hstep0]
  exact ⟨rfl, rfl⟩

def witDisabledCred : Cred :=
  { id := 4, name := "d", keyValue := "key-four", status := Status.Disabled,
    disabledUntil := none, note := none, lastRotatedAt := 0 }

/-- Concrete instance of proxy_no_keys_503: one Disabled credential — the
proxy answers the no-keys 503 with no upstream request. -/
theorem proxy_no_keys_503_witness :
    get_next_key 5 ([] : List Nat) [witDisabledCred] = (none, [witDisabledCred]) ∧
    attemptStep true (fun _ => Outcome.resp 200 "ok") 0 0 5
        { store := [witDisabledCred], tried := [], recorded := [], upstreamCalls := 0 }
      = (StepOut.done ProxyResult.noKeys,
         { store := [witDisabledCred], tried := [], recorded := [], upstreamCalls := 0 }) ∧
    (runProxy true (fun _ => Outcome.resp 200 "ok") 0 5 [witDisabledCred]).1
      = ProxyResult.noKeys ∧
    (runProxy true (fun _ => Outcome.resp 200 "ok") 0 5 [witDisabledCred]).2.upstreamCalls
      = 0 := by
  have h := proxy_no_keys_503 true (fun _ => Outcome.resp 200 "ok") 0 0 5
    { store := [witDisabledCred], tried := [], recorded := [], upstreamCalls := 0 }
    [witDisabledCred] (by decide)
  have h2 := h.2.2.2.2 5 [witDisabledCred] (by decide)
    (by
      intro k hk u
      rcases List.mem_singleton.mp hk with rfl
      simp [healCred, witDisabledCred])
  exact ⟨by decide, h.1, h2.1, h2.2⟩

/-- Claim C10: with a non-negative max_retries setting the proxy function
returns from inside the attempt loop (a relay, the 502 network error, or the
no-keys 503) — never the post-loop "All keys failed after retries" 503, which
is reachable exactly when the stored max_retries value is negative, making
range(max_retries + 1) empty. -/
theorem proxy_loop_terminal_inside (m : Bool) (ups : Nat → Outcome) (mR : Int) (t0 : Nat)
    (store : List Cred) :
    (0 ≤ mR → (runProxy m ups mR t0 store).1 ≠ ProxyResult.allFailed) ∧
    (mR < 0 → (runProxy m ups mR t0 store).1 = ProxyResult.allFailed) := by
  constructor
  · intro hmr
    unfold runProxy
    apply runAttempts_ne_allFailed
    · push_cast
      omega
    · omega
  · intro hmr
    unfold runProxy
    have h0 : (mR + 1).toNat = 0 := by omega
    rw [h0]
    rfl

/-- Concrete instance of proxy_loop_terminal_inside: max_retries = 0 returns
from inside the loop. -/
theorem proxy_loop_terminal_inside_witness :
    (0 : Int) ≤ 0 ∧
    (runProxy true (fun _ => Outcome.resp 200 "ok") 0 5
      [{ id := 9, name := "e", keyValue := "key-nine", status := Status.Healthy,
         disabledUntil := none, note := none, lastRotatedAt := 0 }]).1
      ≠ ProxyResult.allFailed :=
  ⟨by decide,
   (proxy_loop_terminal_inside true (fun _ => Outcome.resp 200 "ok") 0 5
      [{ id := 9, name := "e", keyValue := "key-nine", status := Status.Healthy,
         disabledUntil := none, note := none, lastRotatedAt := 0 }]).1 (by decide)⟩

/-! ## Performance index (KPI) -/

/-- src/app/database.py _compute_keys_with_kpi (lines 251-261): per-credential
performance index from today's stats.  Python float arithmetic is modelled
exactly over the rationals; Python int() truncates toward zero, which on these
non-negative values is the floor. -/
def computeKpi (successes requests totalLatencyMs : Nat) : Int :=
  if requests = 0 then 100
  else
    ⌊((successes : ℚ) / (requests : ℚ)) * 70
      + (max 0 (1 - ((totalLatencyMs : ℚ) / (requests : ℚ)) / 5000)) * 30⌋

/-- The KPI formula exactly as claim C5 states it: index 100 with no requests
today, otherwise round(70 * successRate + 30 * latencyScore). -/
def claimKpiRounded (successes requests totalLatencyMs : Nat) : Int :=
  if requests = 0 then 100
  else
    round (70 * ((successes : ℚ) / (requests : ℚ))
      + 30 * (max 0 (1 - ((totalLatencyMs : ℚ) / (requests : ℚ)) / 5000)))

/-- Claim C5 as stated is false on the code: for a credential with 2 successes
out of 3 requests today and zero recorded latency, the code computes
int(230/3) = 76 while the claimed round(230/3) is 77. -/
theorem kpi_round_claim_false :
    computeKpi 2 3 0 = 76 ∧ claimKpiRounded 2 3 0 = 77 ∧ (76 : Int) ≠ 77 := by
  refine ⟨?_, ?_, by decide⟩
  · rw [computeKpi, if_neg (by norm_num : (3 : Nat) ≠ 0)]
    have hv : ((2 : Nat) : ℚ) / ((3 : Nat) : ℚ) * 70
        + (max 0 (1 - (((0 : Nat) : ℚ) / ((3 : Nat) : ℚ)) / 5000)) * 30 = 230 / 3 := by
      norm_num
    rw [hv, Int.floor_eq_iff]
    norm_num
  · rw [claimKpiRounded, if_neg (by norm_num : (3 : Nat) ≠ 0)]
    have hv : 70 * (((2 : Nat) : ℚ) / ((3 : Nat) : ℚ))
        + 30 * (max 0 (1 - (((0 : Nat) : ℚ) / ((3 : Nat) : ℚ)) / 5000)) = 230 / 3 := by
      norm_num
    rw [hv, round_eq, Int.floor_eq_iff]
    norm_num

/-- Claim C5 amended: the index is 100 when there are no requests today, and
otherwise the TRUNCATION int(successRate * 70 + latencyScore * 30) — the code
uses Python int(), not the round() the claim states; a credential with 0%
success today still has index at most 30. -/
theorem kpi_truncated_amended (s r L : Nat) (hr : r ≠ 0) :
    computeKpi s 0 L = 100 ∧
    computeKpi s r L =
      ⌊((s : ℚ) / (r : ℚ)) * 70 + (max 0 (1 - ((L : ℚ) / (r : ℚ)) / 5000)) * 30⌋ ∧
    (s = 0 → computeKpi s r L ≤ 30) := by
  refine ⟨by simp [computeKpi], by rw [computeKpi, if_neg hr], ?_⟩
  intro hs
  subst hs
  rw [computeKpi, if_neg hr]
  have hmax : (max 0 (1 - ((L : ℚ) / (r : ℚ)) / 5000)) ≤ 1 := by
    apply max_le
    · norm_num
    · have h0 : (0 : ℚ) ≤ ((L : ℚ) / (r : ℚ)) / 5000 := by positivity
      linarith
  have hle : (((0 : Nat) : ℚ) / (r : ℚ)) * 70
      + (max 0 (1 - ((L : ℚ) / (r : ℚ)) / 5000)) * 30 ≤ (30 : ℚ) := by
    have hz : (((0 : Nat) : ℚ) / (r : ℚ)) * 70 = 0 := by
      simp
    rw [hz, zero_add]
    nlinarith [hmax]
  calc ⌊(((0 : Nat) : ℚ) / (r : ℚ)) * 70
        + (max 0 (1 - ((L : ℚ) / (r : ℚ)) / 5000)) * 30⌋
      ≤ ⌊(30 : ℚ)⌋ := Int.floor_le_floor hle
    _ = 30 := by norm_num

/-- Concrete instance of kpi_truncated_amended: one request, zero successes,
7ms of latency. -/
theorem kpi_truncated_amended_witness :
    (1 : Nat) ≠ 0 ∧
    computeKpi 0 0 7 = 100 ∧
    computeKpi 0 1 7 =
      ⌊(((0 : Nat) : ℚ) / ((1 : Nat) : ℚ)) * 70
        + (max 0 (1 - (((7 : Nat) : ℚ) / ((1 : Nat) : ℚ)) / 5000)) * 30⌋ ∧
    ((0 : Nat) = 0 → computeKpi 0 1 7 ≤ 30) := by
  have h := kpi_truncated_amended 0 1 7 (by decide)
  exact ⟨by decide, h.1, h.2.1, h.2.2⟩

/-! ## Protocol translation: format classification and model-name extraction -/

/-- Bool-valued substring containment on character lists, modelling the Python
`needle in haystack` test. -/
def hasInfixAux (needle : List Char) : List Char → Bool
  | [] => needle.isPrefixOf []
  | c :: rest => needle.isPrefixOf (c :: rest) || hasInfixAux needle rest

/-- path.startswith(pre), on character lists so that it evaluates by
reduction. -/
def strStartsWith (pre s : String) : Bool :=
  pre.toList.isPrefixOf s.toList

/-- path.endswith(post), on character lists so that it evaluates by
reduction. -/
def strEndsWith (post s : String) : Bool :=
  post.toList.isSuffixOf s.toList

/-- Wire-format classification (src/app/proxy.py line 503): openai when the
path contains the substring "openai" or starts with "v1/", else gemini. -/
def providerFormat (path : String) : String :=
  if hasInfixAux "openai".toList path.toList || strStartsWith "v1/" path then "openai"
  else "gemini"

/-- Model-name extraction in the openai branch of src/app/proxy.py
(lines 520-540).  The try block dereferences the local request_data, which is
only assigned later (line 545), so a NameError is raised — and caught, after
logging "BUG CONFIRMED: request_data used before definition" — on every
request; model_name therefore stays "unknown" regardless of the JSON body's
model field, and is then overridden to "model-discovery" when the path ends in
"/models". -/
def extractModelNameOpenai (pathToProxy : String) ( _bodyModelField : Option String) : String :=
  let modelName := "unknown"
  let modelName := if strEndsWith "/models" pathToProxy then "model-discovery" else modelName
  modelName

/-- Claim C6 describes the intended behaviour, but the code has a bug: because
request_data is read before its assignment, the body's model field is never
used.  Evaluated at the failing input — an openai-format request for
"v1/chat/completions" whose JSON body carries any model name, e.g.
"gemini-pro" — the recorded model name is "unknown", not the body's model;
the "/models" synthetic name still works because it is computed after the
swallowed NameError. -/
theorem openai_model_name_ignores_body (bodyModelField : Option String) :
    providerFormat "v1/chat/completions" = "openai" ∧
    extractModelNameOpenai "v1/chat/completions" bodyModelField = "unknown" ∧
    extractModelNameOpenai "v1/chat/completions" (some "gemini-pro") ≠ "gemini-pro" ∧
    extractModelNameOpenai "v1/models" bodyModelField = "model-discovery" :=
  ⟨by decide, rfl, by decide, rfl⟩

/-! ## Settings table -/

/-- First value stored under a key (SELECT value FROM settings WHERE key = ?;
the key is the table's primary key). -/
def findValue {α : Type} : List (String × α) → String → Option α
  | [], _ => none
  | (k, v) :: rest, key => if k = key then some v else findValue rest key

/-- A Python value as it comes out of the settings coercion: bool, int or
string. -/
inductive SettingValue where
  | boolVal (b : Bool)
  | intVal (n : Int)
  | strVal (s : String)
deriving DecidableEq, Repr

/-- Python str() of such a value, as stored by set_setting / update_settings
(str(True) = "True", str(False) = "False", str of an int its decimal form,
str of a string itself). -/
def pyStr : SettingValue → String
  | SettingValue.boolVal true => "True"
  | SettingValue.boolVal false => "False"
  | SettingValue.intVal n => toString n
  | SettingValue.strVal s => s

/-- ASCII value.lower(), on the character list so that it evaluates by
reduction. -/
def lowerChar (c : Char) : Char :=
  if 65 ≤ c.toNat ∧ c.toNat ≤ 90 then Char.ofNat (c.toNat + 32) else c

def pyLower (s : String) : String :=
  String.mk (s.data.map lowerChar)

/-- Python int() on an all-digits character list. -/
def digitsVal (l : List Char) : Nat :=
  l.foldl (fun acc c => acc * 10 + (c.toNat - 48)) 0

/-- src/app/database.py get_all_settings (lines 515-531): per-value type
coercion.  none models the `except (AttributeError, ValueError)` path that
skips the row: value.lstrip('-').isdigit() accepts any number of leading
minus signs, but int(value) then raises ValueError when there are two or
more. -/
def coerceSettingValue (v : String) : Option SettingValue :=
  let lower := pyLower v
  let stripped := v.data.dropWhile (fun c => c = '-')
  if lower = "true" ∨ lower = "false" then
    some (SettingValue.boolVal (lower = "true"))
  else if stripped ≠ [] ∧ stripped.all Char.isDigit then
    if ("--".data).isPrefixOf v.data then none
    else if ("-".data).isPrefixOf v.data then
      some (SettingValue.intVal (-(digitsVal stripped : Int)))
    else some (SettingValue.intVal (digitsVal stripped))
  else some (SettingValue.strVal v)

/-- src/app/database.py get_setting (lines 488-494): the raw stored string, or
the supplied default when the key is absent.  No coercion happens here. -/
def get_setting (settings : List (String × String)) (key : String)
    (default : Option String) : Option String :=
  match findValue settings key with
  | some v => some v
  | none => default

/-- src/app/database.py set_setting (lines 496-507): upsert of str(value). -/
def set_setting (settings : List (String × String)) (key : String)
    (value : SettingValue) : List (String × String) :=
  if (findValue settings key).isSome then
    settings.map (fun p => if p.1 = key then (p.1, pyStr value) else p)
  else settings ++ [(key, pyStr value)]

/-- src/app/database.py get_all_settings (lines 509-532): every row, coerced;
uncoercible rows are skipped. -/
def get_all_settings (settings : List (String × String)) :
    List (String × SettingValue) :=
  settings.filterMap (fun p => (coerceSettingValue p.2).map (fun v => (p.1, v)))

/-- getSetting exactly as claim C7 states it: the stored value coerced by type
inference on read. -/
def claimGetSettingCoerced (settings : List (String × String)) (key : String) :
    Option SettingValue :=
  (findValue settings key).bind coerceSettingValue

/-- Claim C7 as stated is false on the code: get_setting performs no type
coercion.  For the stored setting max_retries = "7" the claimed coerced read
yields the integer 7, but get_setting returns the raw string "7" (its callers
apply int() themselves, e.g. src/app/proxy.py line 551). -/
theorem get_setting_coercion_claim_false :
    get_setting [("max_retries", "7")] "max_retries" none = some "7" ∧
    claimGetSettingCoerced [("max_retries", "7")] "max_retries"
      = some (SettingValue.intVal 7) ∧
    SettingValue.strVal "7" ≠ SettingValue.intVal 7 :=
  ⟨rfl, by decide, by decide⟩

theorem findValue_eq_none_of_not_mem {α : Type} :
    ∀ (l : List (String × α)) (k : String), k ∉ l.map Prod.fst → findValue l k = none := by
  intro l
  induction l with
  | nil => intro k _; rfl
  | cons p rest ih =>
      intro k hk
      cases p with
      | mk a b =>
          simp only [List.map_cons, List.mem_cons, not_or] at hk
          have hak : a ≠ k := fun h => hk.1 h.symm
          simp only [findValue, if_neg hak]
          exact ih k hk.2

theorem mem_keys_filterMap {α : Type} (f : String → Option α) :
    ∀ (l : List (String × String)) (k : String),
      k ∈ (l.filterMap (fun p => (f p.2).map (fun v => (p.1, v)))).map Prod.fst →
      k ∈ l.map Prod.fst := by
  intro l k h
  simp only [List.map_filterMap, List.mem_filterMap] at h
  obtain ⟨p, hp, hpk⟩ := h
  cases hf : f p.2 with
  | none => rw [hf] at hpk; simp at hpk
  | some w =>
      rw [hf] at hpk
      simp at hpk
      rw [← hpk]
      exact List.mem_map_of_mem Prod.fst hp

theorem findValue_filterMap {α : Type} (f : String → Option α) :
    ∀ (l : List (String × String)), (l.map Prod.fst).Nodup → ∀ (k : String),
      findValue (l.filterMap (fun p => (f p.2).map (fun v => (p.1, v)))) k
        = (findValue l k).bind f := by
  intro l
  induction l with
  | nil => intro _ k; rfl
  | cons p rest ih =>
      intro hnd k
      cases p with
      | mk a b =>
          simp only [List.map_cons, List.nodup_cons] at hnd
          by_cases hak : a = k
          · subst hak
            cases hf : f b with
            | some w =>
                simp [List.filterMap_cons, hf, findValue]
            | none =>
                have hnone : findValue (rest.filterMap
                    (fun p => (f p.2).map (fun v => (p.1, v)))) a = none := by
                  apply findValue_eq_none_of_not_mem
                  intro hmem
                  exact hnd.1 (mem_keys_filterMap f rest a hmem)
                simp [List.filterMap_cons, hf, findValue, hnone]
          · cases hf : f b with
            | some w =>
                simp [List.filterMap_cons, hf, findValue, hak, ih hnd.2 k]
            | none =>
                simp [List.filterMap_cons, hf, findValue, hak, ih hnd.2 k]

theorem findValue_map_upd (x : String) :
    ∀ (l : List (String × String)) (k : String),
      findValue (l.map (fun p => if p.1 = k then (p.1, x) else p)) k
        = if (findValue l k).isSome then some x else none := by
  intro l
  induction l with
  | nil => intro k; rfl
  | cons p rest ih =>
      intro k
      cases p with
      | mk a b =>
          by_cases hak : a = k
          · subst hak
            simp only [List.map_cons]
            rw [if_true]
            simp [findValue]
          · simp only [List.map_cons]
            have h2 : ¬ (a, b).1 = k := hak
            rw [if_neg h2]
            simp only [findValue, if_neg hak]
            exact ih k

/-- Claim C7 amended: set_setting stores str(value) and reading it back with
get_setting returns that raw string; get_setting returns the raw stored string
(or the default when the key is absent) with NO type coercion; the
boolean/integer/string type inference of the claim happens only in
get_all_settings, whose entry for a stored key is exactly the coercion of its
raw value. -/
theorem settings_read_write_amended (st : List (String × String)) (k v : String)
    (val : SettingValue) (hnd : (st.map Prod.fst).Nodup)
    (hmem : findValue st k = some v) :
    get_setting st k none = some v ∧
    get_setting (set_setting st k val) k none = some (pyStr val) ∧
    findValue (get_all_settings st) k = coerceSettingValue v ∧
    (∀ (key : String) (dflt : Option String),
      findValue st key = none → get_setting st key dflt = dflt) := by
  refine ⟨by simp [get_setting, hmem], ?_, ?_, ?_⟩
  · have hsome : (findValue st k).isSome := by rw [hmem]; rfl
    rw [set_setting, if_pos hsome, get_setting, findValue_map_upd, if_pos hsome]
  · rw [get_all_settings, findValue_filterMap coerceSettingValue st hnd k, hmem]
    rfl
  · intro key dflt h
    simp [get_setting, h]

/-- Concrete instance of settings_read_write_amended on the stored setting
max_retries = "7": raw string on get_setting, coerced integer only in
get_all_settings, str() round-trip on write. -/
theorem settings_read_write_amended_witness :
    ([("max_retries", "7")].map Prod.fst).Nodup ∧
    findValue [("max_retries", "7")] "max_retries" = some "7" ∧
    get_setting [("max_retries", "7")] "max_retries" none = some "7" ∧
    get_setting (set_setting [("max_retries", "7")] "max_retries"
        (SettingValue.boolVal true)) "max_retries" none = some "True" ∧
    findValue (get_all_settings [("max_retries", "7")]) "max_retries"
      = coerceSettingValue "7" := by
  have h := settings_read_write_amended [("max_retries", "7")] "max_retries" "7"
    (SettingValue.boolVal true) (by decide) (by decide)
  exact ⟨by decide, by decide, h.1, h.2.1, h.2.2.1⟩

/-! ## Bulk import (src/app/database.py bulk_import_keys) -/

/-- One entry of the imported list: key_obj.get('key_value'),
key_obj.get('name', 'Unnamed'), key_obj.get('note'). -/
structure ImportEntry where
  keyValue : Option String
  name : String
  note : Option String
deriving DecidableEq, Repr

/-- The UNIQUE constraint probe on key_value: does any row carry this
secret? -/
def hasKeyValue (ks : List Cred) (kv : String) : Bool :=
  ks.any (fun k => k.keyValue == kv)

/-- A freshly inserted row: AUTOINCREMENT id, defaults Healthy /
NULL disabled_until / epoch last_rotated_at. -/
def mkImportedCred (id : Nat) (name : String) (kv : String) (note : Option String) : Cred :=
  { id := id, name := name, keyValue := kv, status := Status.Healthy,
    disabledUntil := none, note := note, lastRotatedAt := 0 }

/-- Running result of bulk_import_keys: next AUTOINCREMENT id, the table, the
imported and skipped counters. -/
structure ImportResult where
  nextId : Nat
  store : List Cred
  imported : Nat
  skipped : Nat
deriving DecidableEq, Repr

/-- The per-entry body of the import loop (src/app/database.py
lines 350-363): entries with a missing, empty or shorter-than-10 key_value
are skipped; an INSERT hitting the UNIQUE constraint
(sqlite3.IntegrityError) is skipped; otherwise the row is inserted and
counted. -/
def importStep (acc : ImportResult) (e : ImportEntry) : ImportResult :=
  match e.keyValue with
  | none => { acc with skipped := acc.skipped + 1 }
  | some kv =>
      if kv.length < 10 then { acc with skipped := acc.skipped + 1 }
      else if hasKeyValue acc.store kv then { acc with skipped := acc.skipped + 1 }
      else
        { acc with
          nextId := acc.nextId + 1,
          store := acc.store ++ [mkImportedCred acc.nextId e.name kv e.note],
          imported := acc.imported + 1 }

/-- src/app/database.py bulk_import_keys (lines 342-366): fold the loop body
over the batch, starting from zero counters. -/
def bulk_import_keys (nextId : Nat) (store : List Cred) (entries : List ImportEntry) :
    ImportResult :=
  entries.foldl importStep
    { nextId := nextId, store := store, imported := 0, skipped := 0 }

/-- An entry that the import loop does not skip. -/
def entryValid (e : ImportEntry) : Prop :=
  ∃ kv, e.keyValue = some kv ∧ ¬ kv.length < 10

theorem hasKeyValue_append (l m : List Cred) (kv : String) :
    hasKeyValue (l ++ m) kv = (hasKeyValue l kv || hasKeyValue m kv) := by
  simp [hasKeyValue, List.any_append]

theorem importStep_store_mono (acc : ImportResult) (e : ImportEntry) (kv : String)
    (h : hasKeyValue acc.store kv = true) :
    hasKeyValue (importStep acc e).store kv = true := by
  unfold importStep
  cases e.keyValue with
  | none => exact h
  | some kv2 =>
      dsimp only
      by_cases h1 : kv2.length < 10
      · rw [if_pos h1]; exact h
      · rw [if_neg h1]
        by_cases h2 : hasKeyValue acc.store kv2
        · rw [if_pos h2]; exact h
        · rw [if_neg h2]
          simp only [hasKeyValue_append, h]
          rfl

theorem foldl_importStep_store_mono (entries : List ImportEntry) :
    ∀ (acc : ImportResult) (kv : String), hasKeyValue acc.store kv = true →
      hasKeyValue (entries.foldl importStep acc).store kv = true := by
  induction entries with
  | nil => intro acc kv h; exact h
  | cons e rest ih =>
      intro acc kv h
      exact ih (importStep acc e) kv (importStep_store_mono acc e kv h)

theorem foldl_importStep_mem (entries : List ImportEntry) :
    ∀ (acc : ImportResult), ∀ e ∈ entries, ∀ kv, e.keyValue = some kv →
      ¬ kv.length < 10 →
      hasKeyValue ((entries.foldl importStep acc).store) kv = true := by
  induction entries with
  | nil => intro acc e he; simp at he
  | cons e0 rest ih =>
      intro acc e he kv hkv hlen
      rcases List.mem_cons.mp he with he | he
      · subst he
        apply foldl_importStep_store_mono rest (importStep acc e)
        unfold importStep
        rw [hkv]
        dsimp only
        rw [if_neg hlen]
        by_cases h2 : hasKeyValue acc.store kv
        · rw [if_pos h2]; exact h2
        · rw [if_neg h2]
          simp only [hasKeyValue_append]
          simp [hasKeyValue, mkImportedCred]
      · exact ih (importStep acc e0) e he kv hkv hlen

theorem foldl_importStep_all_dup (entries : List ImportEntry) :
    ∀ (acc : ImportResult),
      (∀ e ∈ entries, ∀ kv, e.keyValue = some kv → ¬ kv.length < 10 →
        hasKeyValue acc.store kv = true) →
      entries.foldl importStep acc =
        { acc with skipped := acc.skipped + entries.length } := by
  induction entries with
  | nil => intro acc _; simp
  | cons e rest ih =>
      intro acc hall
      have hstep : importStep acc e = { acc with skipped := acc.skipped + 1 } := by
        unfold importStep
        cases hkv : e.keyValue with
        | none => rfl
        | some kv =>
            dsimp only
            by_cases h1 : kv.length < 10
            · rw [if_pos h1]
            · rw [if_neg h1,
                if_pos (hall e (List.mem_cons_self e rest) kv hkv h1)]
      show (rest.foldl importStep (importStep acc e)) = _
      rw [hstep]
      rw [ih { acc with skipped := acc.skipped + 1 }
        (fun e2 he2 kv hkv hlen =>
          hall e2 (List.mem_cons_of_mem e he2) kv hkv hlen)]
      simp [List.length_cons]
      omega

/-- Claim C8: importing the same batch a second time imports nothing — every
entry is skipped as invalid or duplicate, the returned counters are
imported = 0 and skipped = the batch length, the table is unchanged, and the
batch as a whole does not fail. -/
theorem bulk_import_idempotent (nextId : Nat) (store : List Cred)
    (entries : List ImportEntry) :
    (bulk_import_keys
        (bulk_import_keys nextId store entries).nextId
        (bulk_import_keys nextId store entries).store
        entries).imported = 0 ∧
    (bulk_import_keys
        (bulk_import_keys nextId store entries).nextId
        (bulk_import_keys nextId store entries).store
        entries).skipped = entries.length ∧
    (bulk_import_keys
        (bulk_import_keys nextId store entries).nextId
        (bulk_import_keys nextId store entries).store
        entries).store = (bulk_import_keys nextId store entries).store := by
  have hall : ∀ e ∈ entries, ∀ kv, e.keyValue = some kv → ¬ kv.length < 10 →
      hasKeyValue (bulk_import_keys nextId store entries).store kv = true := by
    intro e he kv hkv hlen
    exact foldl_importStep_mem entries _ e he kv hkv hlen
  rw [bulk_import_keys,
    foldl_importStep_all_dup entries
      { nextId := (bulk_import_keys nextId store entries).nextId,
        store := (bulk_import_keys nextId store entries).store,
        imported := 0, skipped := 0 } hall]
  simp

/-! ## update_key versus add_key (src/app/database.py) -/

/-- Python name.strip() defaulting: 'Unnamed' when empty after stripping. -/
def normalizeName (n : String) : String :=
  if n.trim = "" then "Unnamed" else n.trim

/-- src/app/database.py update_key (lines 276-301).  A name update applies
whenever new_name is not None; a secret update applies only when new_value is
truthy AND STRICTLY LONGER than 10 characters; a status update applies only
for "Healthy"/"Disabled"; a note update whenever new_note is not None.  With
no applicable update the call fails with "No valid data."; a UNIQUE violation
on the new secret fails with "Update failed."; otherwise the row (if any) is
updated and the call reports "Key updated.". -/
def update_key (ks : List Cred) (keyId : Nat)
    (newName newValue newStatus newNote : Option String) :
    List Cred × Bool × String :=
  let nameUpd : Option String := newName.map normalizeName
  let valueUpd : Option String :=
    match newValue with
    | some v => if v ≠ "" ∧ v.length > 10 then some v else none
    | none => none
  let statusUpd : Option Status :=
    match newStatus with
    | some st =>
        if st = "Healthy" then some Status.Healthy
        else if st = "Disabled" then some Status.Disabled
        else none
    | none => none
  if nameUpd = none ∧ valueUpd = none ∧ statusUpd = none ∧ newNote = none then
    (ks, false, "No valid data.")
  else if (match valueUpd with
           | some v => ks.any (fun k => k.keyValue == v && k.id != keyId)
           | none => false) then
    (ks, false, "Update failed.")
  else
    (ks.map (fun k =>
      if k.id = keyId then
        { k with
          name := nameUpd.getD k.name,
          keyValue := valueUpd.getD k.keyValue,
          status := statusUpd.getD k.status,
          disabledUntil := if statusUpd.isSome then none else k.disabledUntil,
          note := match newNote with | some n => some n | none => k.note }
      else k),
     true, "Key updated.")

/-- src/app/database.py add_key (lines 264-274): rejects an empty or
shorter-than-10 secret ("Invalid key."), rejects a duplicate secret
("Key exists."), otherwise inserts with defaults. -/
def add_key (nextId : Nat) (ks : List Cred) (keyValue : String)
    (name note : Option String) : (Nat × List Cred) × Bool × String :=
  if keyValue = "" ∨ keyValue.length < 10 then ((nextId, ks), false, "Invalid key.")
  else
    let keyName := match name with
      | some n => normalizeName n
      | none => "Unnamed"
    if hasKeyValue ks keyValue then ((nextId, ks), false, "Key exists.")
    else
      ((nextId + 1,
        ks ++ [{ id := nextId, name := keyName, keyValue := keyValue,
                 status := Status.Healthy, disabledUntil := none, note := note,
                 lastRotatedAt := 0 }]),
       true, "Key added.")

/-- Claim C9: update_key silently ignores a new secret of length at most 10
(its guard demands length strictly greater than 10), so a call supplying only
such a secret returns (False, "No valid data.") and leaves the table
unchanged — even for a 10-character secret, which add_key accepts as valid,
since add_key rejects only empty or shorter-than-10 secrets. -/
theorem update_key_short_secret_rejected (ks : List Cred) (kid : Nat) (s : String)
    (hne : s ≠ "") (hlen : s.length ≤ 10) :
    update_key ks kid none (some s) none none = (ks, false, "No valid data.") ∧
    (s.length = 10 → (add_key 1 [] s none none).2 = (true, "Key added.")) := by
  constructor
  · rw [update_key]
    have hval : ¬ (s ≠ "" ∧ s.length > 10) := by omega
    simp only [Option.map_none, if_neg hval]
    simp
  · intro h10
    rw [add_key]
    have hbig : ¬ (s = "" ∨ s.length < 10) := by
      push_neg
      exact ⟨hne, by omega⟩
    rw [if_neg hbig]
    dsimp only
    rw [if_neg (by simp [hasKeyValue])]

/-- Concrete instance of update_key_short_secret_rejected on the
ten-character secret "0123456789". -/
theorem update_key_short_secret_rejected_witness :
    "0123456789" ≠ "" ∧ ("0123456789".length ≤ 10) ∧
    update_key [wit3Cred] 3 none (some "0123456789") none none
      = ([wit3Cred], false, "No valid data.") ∧
    ("0123456789".length = 10 →
      (add_key 1 [] "0123456789" none none).2 = (true, "Key added.")) := by
  have h := update_key_short_secret_rejected [wit3Cred] 3 "0123456789"
    (by decide) (by decide)
  exact ⟨by decide, by decide, h.1, h.2⟩

end AIMiddleware
